import Mathlib

/-!
Shallow embedding of `tools/main.py` from the Entropy repository: a
stack-based syntax-tree visitor that counts call expressions per
function scope and combines function scores into class scores.

Modelling choices:
* Syntax trees are a four-constructor inductive (`ClassDef`,
  `FunctionDef`, `Call`, anything else), each node carrying its
  children, mirroring how `ast.NodeVisitor.generic_visit` only ever
  exposes a node kind and its children to the analyzer.
* Python float arithmetic is modelled over `ℚ`; the constants the
  claims mention (0, 1/2, 1) are exact in both.
* Python exceptions are modelled with `Except` / `Option`: `reduce`
  over an empty list raises `TypeError`, a missing dict key raises
  `KeyError`, and list indexing out of range raises `IndexError`.
* Printing is modelled by accumulating `Emitted` records in the order
  the `print` calls happen.
-/

deriving instance DecidableEq for Except

namespace Entropy

/-- `MAX_CALLS = 10` from the source. -/
def MAX_CALLS : ℕ := 10

/-- Python's builtin `max(a, b)`: returns `a` when `a >= b`. -/
def pymax (a b : ℚ) : ℚ := if a < b then b else a

/-- Python's builtin `min(a, b)`: returns `a` when `a <= b`. -/
def pymin (a b : ℚ) : ℚ := if b < a then b else a

/-- `func_entropy(n_calls, max_calls) = max(min(1 - (n_calls / max_calls), 1), 0)`. -/
def func_entropy (n_calls max_calls : ℕ) : ℚ :=
  pymax (pymin (1 - (n_calls : ℚ) / (max_calls : ℚ)) 1) 0

/-- `percent(v) = int(v * 100.0)`: truncation toward zero. -/
def percent (v : ℚ) : ℤ :=
  (v * 100).num.tdiv ((v * 100).den : ℤ)

/-- Python list indexing `l[i]`: a negative index counts from the end,
an index out of range raises `IndexError` (modelled as `none`). -/
def pyIndex {α : Type} (l : List α) (i : ℤ) : Option α :=
  let j := if i < 0 then i + l.length else i
  if h : 0 ≤ j ∧ j.toNat < l.length then some (l.get ⟨j.toNat, h.2⟩) else none

/-- Python `del l[i]` with the same index semantics as `pyIndex`. -/
def pyDelete {α : Type} (l : List α) (i : ℤ) : Option (List α) :=
  let j := if i < 0 then i + l.length else i
  if 0 ≤ j ∧ j.toNat < l.length then some (l.eraseIdx j.toNat) else none

/-- The `Stack` class: a list `__inner` plus a manually maintained index
`__depth` (`-1` when empty). -/
structure Stack (α : Type) : Type where
  inner : List α
  depth : ℤ
deriving Repr, DecidableEq

/-- `Stack.__init__`: `__inner = []`, `__depth = -1`. -/
def Stack.init {α : Type} : Stack α := ⟨[], -1⟩

/-- `Stack.push`: `__inner.append(e); __depth += 1`. -/
def Stack.push {α : Type} (s : Stack α) (e : α) : Stack α :=
  ⟨s.inner ++ [e], s.depth + 1⟩

/-- `Stack.pop`: `e = __inner[__depth]; del __inner[__depth]; __depth -= 1;
return e`, with `IndexError` (modelled as `none`) on a bad index. -/
def Stack.pop {α : Type} (s : Stack α) : Option (α × Stack α) := do
  let e ← pyIndex s.inner s.depth
  let inner' ← pyDelete s.inner s.depth
  some (e, ⟨inner', s.depth - 1⟩)

/-- `Stack.peek`: `__inner[__depth]`. -/
def Stack.peek {α : Type} (s : Stack α) : Option α :=
  pyIndex s.inner s.depth

/-- `Stack.__len__`: `len(__inner)`. -/
def Stack.len {α : Type} (s : Stack α) : ℕ := s.inner.length

/-- The well-formedness the source maintains by hand: `__depth` always
indexes the last element, `len(__inner) - 1`. -/
def Stack.Inv {α : Type} (s : Stack α) : Prop :=
  s.depth = (s.inner.length : ℤ) - 1

/-- A push or a pop, for stating properties of operation sequences. -/
inductive StackOp (α : Type) : Type where
  | push (e : α)
  | pop
deriving Repr

/-- Run one operation; a failed pop (Python `IndexError`) is `none`. -/
def runOp {α : Type} (s : Stack α) : StackOp α → Option (Stack α)
  | StackOp.push e => some (s.push e)
  | StackOp.pop => (s.pop).map (·.2)

/-- Run a sequence of operations from a given state. -/
def runOps {α : Type} : List (StackOp α) → Stack α → Option (Stack α)
  | [], s => some s
  | op :: ops, s => do
    let s' ← runOp s op
    runOps ops s'

/-- Syntax-tree nodes as the analyzer distinguishes them: `ClassDef`,
`FunctionDef`, `Call`, and every other node kind (traversed but not
specially handled). -/
inductive Node : Type where
  | classDef (name : String) (children : List Node)
  | funcDef (name : String) (children : List Node)
  | call (children : List Node)
  | other (children : List Node)
deriving Repr

/-- The dictionaries the analyzer pushes on its stack:
`{"type": "class", "functions": []}` or `{"type": "func", "calls": 0}`. -/
inductive Ctx : Type where
  | cls (functions : List ℚ)
  | func (calls : ℕ)
deriving Repr, DecidableEq

/-- Python exceptions the analyzer can raise. -/
inductive Err : Type where
  | typeError
  | keyError
  | indexError
deriving Repr, DecidableEq

/-- Which kind of scope a printed block describes. -/
inductive Kind : Type where
  | cls
  | func
deriving Repr, DecidableEq

/-- One printed block: `class/function <name>`, the raw count, and the
entropy score (printed as a percentage in the source). -/
structure Emitted : Type where
  kind : Kind
  name : String
  count : ℕ
  score : ℚ
deriving Repr, DecidableEq

/-- `reduce(lambda x, y: x * y, l)` with no initial value: raises
`TypeError` on an empty list, otherwise folds from the left starting
with the first element. -/
def reduceMul : List ℚ → Except Err ℚ
  | [] => .error .typeError
  | x :: xs => .ok (xs.foldl (· * ·) x)

/-- The tail of `visit_ClassDef` after `generic_visit` returns: pop the
stack, reduce the collected function scores, print the class block.
Note: unlike `visit_FunctionDef`, nothing is appended to any enclosing
context afterwards. -/
def closeClass (name : String) : List Emitted × List Ctx → Except Err (List Emitted × List Ctx)
  | (rs, stack) =>
    match stack with
    | [] => .error .indexError
    | Ctx.func _ :: _ => .error .keyError
    | Ctx.cls fns :: rest => do
      let entropy ← reduceMul fns
      .ok (rs ++ [⟨Kind.cls, name, fns.length, entropy⟩], rest)

/-- `if len(self.stack) and self.stack.peek["type"] == "class":
self.stack.peek["functions"].append(entropy)` — the last two lines of
`visit_FunctionDef`. -/
def appendScore (e : ℚ) : List Ctx → List Ctx
  | Ctx.cls fns :: below => Ctx.cls (fns ++ [e]) :: below
  | r => r

/-- The tail of `visit_FunctionDef` after `generic_visit` returns: pop
the stack, compute `func_entropy(calls, MAX_CALLS)`, print the function
block, and, if the newly exposed stack top is a class context, append
this score to its `"functions"` list. -/
def closeFunc (name : String) : List Emitted × List Ctx → Except Err (List Emitted × List Ctx)
  | (rs, stack) =>
    match stack with
    | [] => .error .indexError
    | Ctx.cls _ :: _ => .error .keyError
    | Ctx.func n :: rest =>
      let entropy := func_entropy n MAX_CALLS
      .ok (rs ++ [⟨Kind.func, name, n, entropy⟩], appendScore entropy rest)

mutual

/-- `Analyzer.visit` dispatch: `visit_ClassDef`, `visit_FunctionDef`,
`visit_Call`, and the `generic_visit` default, threading the context
stack and the printed output explicitly. -/
def visit : Node → List Ctx → Except Err (List Emitted × List Ctx)
  | Node.classDef name children, stack => do
    let st ← visitList children (Ctx.cls [] :: stack)
    closeClass name st
  | Node.funcDef name children, stack => do
    let st ← visitList children (Ctx.func 0 :: stack)
    closeFunc name st
  | Node.call children, stack =>
    match stack with
    | [] => visitList children []
    | Ctx.func n :: rest => visitList children (Ctx.func (n + 1) :: rest)
    | Ctx.cls _ :: _ => .error .keyError
  | Node.other children, stack => visitList children stack

/-- `generic_visit`: visit the children left to right, threading the
stack and concatenating output. -/
def visitList : List Node → List Ctx → Except Err (List Emitted × List Ctx)
  | [], stack => .ok ([], stack)
  | n :: ns, stack => do
    let (rs₁, s₁) ← visit n stack
    let (rs₂, s₂) ← visitList ns s₁
    .ok (rs₁ ++ rs₂, s₂)

end

/-- `main`'s analysis step: a fresh `Analyzer` (empty stack) visits the
tree. -/
def analyze (root : Node) : Except Err (List Emitted × List Ctx) :=
  visit root []

/-- Two successive runs of the analysis on the same tree, each with a
fresh `Analyzer` exactly as `Analyzer()` constructs one (empty stack). -/
def analyzeTwice (root : Node) :
    Except Err (List Emitted × List Ctx) × Except Err (List Emitted × List Ctx) :=
  (visit root [], visit root [])

/-- The `"type"` field of a context dict: `true` for `"class"`,
`false` for `"func"`. -/
def ctag : Ctx → Bool
  | Ctx.cls _ => true
  | Ctx.func _ => false

/-- `s'` agrees with `s` except possibly in the value stored in the head
context: the tail is identical and the head keeps its `"type"` tag.  This
is how a completed visit relates the stack it was given to the stack it
returns. -/
def HeadMod : List Ctx → List Ctx → Prop
  | [], s' => s' = []
  | c :: r, s' => ∃ c', s' = c' :: r ∧ ctag c' = ctag c

theorem pymax_eq (a b : ℚ) : pymax a b = max a b := by
  rw [pymax, max_def]
  split_ifs <;> linarith

theorem pymin_eq (a b : ℚ) : pymin a b = min a b := by
  rw [pymin, min_def]
  split_ifs <;> linarith

theorem func_entropy_eq (n m : ℕ) :
    func_entropy n m = max (min (1 - (n : ℚ) / (m : ℚ)) 1) 0 := by
  rw [func_entropy, pymax_eq, pymin_eq]

theorem headMod_refl (s : List Ctx) : HeadMod s s := by
  cases s with
  | nil => rfl
  | cons c r => exact ⟨c, rfl, rfl⟩

theorem headMod_trans {s₁ s₂ s₃ : List Ctx} (h₁ : HeadMod s₁ s₂) (h₂ : HeadMod s₂ s₃) :
    HeadMod s₁ s₃ := by
  cases s₁ with
  | nil => rw [HeadMod] at h₁; subst h₁; exact h₂
  | cons c r =>
    obtain ⟨c', rfl, hc'⟩ := h₁
    obtain ⟨c'', rfl, hc''⟩ := h₂
    exact ⟨c'', rfl, hc''.trans hc'⟩

theorem headMod_length {s s' : List Ctx} (h : HeadMod s s') : s.length = s'.length := by
  cases s with
  | nil => rw [HeadMod] at h; subst h; rfl
  | cons c r => obtain ⟨c', rfl, -⟩ := h; rfl

theorem headMod_appendScore (e : ℚ) (s : List Ctx) : HeadMod s (appendScore e s) := by
  cases s with
  | nil => rfl
  | cons c r =>
    cases c with
    | cls fns => exact ⟨Ctx.cls (fns ++ [e]), rfl, rfl⟩
    | func k => exact ⟨Ctx.func k, rfl, rfl⟩

mutual

/-- A completed visit of one node leaves the stack it was given intact
except possibly for the value in its head context. -/
theorem visit_headMod (n : Node) (s : List Ctx) (rs : List Emitted) (s' : List Ctx)
    (h : visit n s = Except.ok (rs, s')) : HeadMod s s' := by
  cases n with
  | classDef name ch =>
    cases hv : visitList ch (Ctx.cls [] :: s) with
    | error e => simp [visit, hv, bind, Except.bind] at h
    | ok st =>
      obtain ⟨rs₀, s₀⟩ := st
      have hm := visitList_headMod ch (Ctx.cls [] :: s) rs₀ s₀ hv
      obtain ⟨c', rfl, hct⟩ := hm
      cases c' with
      | func k => simp [ctag] at hct
      | cls fns =>
        simp only [visit, hv, bind, Except.bind, closeClass] at h
        cases fns with
        | nil => simp [reduceMul] at h
        | cons x xs =>
          simp only [reduceMul, Except.ok.injEq, Prod.mk.injEq] at h
          rw [← h.2]
          exact headMod_refl s
  | funcDef name ch =>
    cases hv : visitList ch (Ctx.func 0 :: s) with
    | error e => simp [visit, hv, bind, Except.bind] at h
    | ok st =>
      obtain ⟨rs₀, s₀⟩ := st
      have hm := visitList_headMod ch (Ctx.func 0 :: s) rs₀ s₀ hv
      obtain ⟨c', rfl, hct⟩ := hm
      cases c' with
      | cls fns => simp [ctag] at hct
      | func k =>
        simp only [visit, hv, bind, Except.bind, closeFunc, Except.ok.injEq,
          Prod.mk.injEq] at h
        rw [← h.2]
        exact headMod_appendScore _ s
  | call ch =>
    cases s with
    | nil => exact visitList_headMod ch [] rs s' (by simpa [visit] using h)
    | cons c rest =>
      cases c with
      | func k =>
        exact visitList_headMod ch (Ctx.func (k + 1) :: rest) rs s' (by simpa [visit] using h)
      | cls fns => simp [visit] at h
  | other ch => exact visitList_headMod ch s rs s' (by simpa [visit] using h)

/-- A completed visit of a child list leaves the stack it was given
intact except possibly for the value in its head context. -/
theorem visitList_headMod (ns : List Node) (s : List Ctx) (rs : List Emitted) (s' : List Ctx)
    (h : visitList ns s = Except.ok (rs, s')) : HeadMod s s' := by
  cases ns with
  | nil =>
    simp only [visitList, Except.ok.injEq, Prod.mk.injEq] at h
    rw [← h.2]
    exact headMod_refl s
  | cons n ns =>
    cases hv : visit n s with
    | error e => simp [visitList, hv, bind, Except.bind] at h
    | ok st =>
      obtain ⟨rs₁, s₁⟩ := st
      cases hv2 : visitList ns s₁ with
      | error e => simp [visitList, hv, hv2, bind, Except.bind] at h
      | ok st2 =>
        obtain ⟨rs₂, s₂⟩ := st2
        have hm := headMod_trans (visit_headMod n s rs₁ s₁ hv)
          (visitList_headMod ns s₁ rs₂ s₂ hv2)
        simp only [visitList, hv, hv2, bind, Except.bind, Except.ok.injEq,
          Prod.mk.injEq] at h
        rw [← h.2]
        exact hm

end

/-- Inversion of a successful class visit: the children ran with one
fresh class context pushed, the collected score list was non-empty, the
class block is printed after all child output, and the surrounding stack
is returned exactly as it was. -/
theorem visit_classDef_inv (name : String) (ch : List Node) (s : List Ctx)
    (rs : List Emitted) (s' : List Ctx)
    (h : visit (Node.classDef name ch) s = Except.ok (rs, s')) :
    ∃ rs₀ x xs, visitList ch (Ctx.cls [] :: s) = Except.ok (rs₀, Ctx.cls (x :: xs) :: s) ∧
      rs = rs₀ ++ [⟨Kind.cls, name, (x :: xs).length, xs.foldl (· * ·) x⟩] ∧ s' = s := by
  cases hv : visitList ch (Ctx.cls [] :: s) with
  | error e => simp [visit, hv, bind, Except.bind] at h
  | ok st =>
    obtain ⟨rs₀, s₀⟩ := st
    have hm := visitList_headMod ch (Ctx.cls [] :: s) rs₀ s₀ hv
    obtain ⟨c', rfl, hct⟩ := hm
    cases c' with
    | func k => simp [ctag] at hct
    | cls fns =>
      simp only [visit, hv, bind, Except.bind, closeClass] at h
      cases fns with
      | nil => simp [reduceMul] at h
      | cons x xs =>
        simp only [reduceMul, Except.ok.injEq, Prod.mk.injEq] at h
        exact ⟨rs₀, x, xs, rfl, h.1.symm, h.2.symm⟩

/-- Inversion of a successful function visit: the children ran with one
fresh counter pushed and left the surrounding stack intact, the function
block is printed after all child output with the score
`func_entropy(count, MAX_CALLS)`, and the score is appended to the newly
exposed top context when that is a class context. -/
theorem visit_funcDef_inv (name : String) (ch : List Node) (s : List Ctx)
    (rs : List Emitted) (s' : List Ctx)
    (h : visit (Node.funcDef name ch) s = Except.ok (rs, s')) :
    ∃ rs₀ n, visitList ch (Ctx.func 0 :: s) = Except.ok (rs₀, Ctx.func n :: s) ∧
      rs = rs₀ ++ [⟨Kind.func, name, n, func_entropy n MAX_CALLS⟩] ∧
      s' = appendScore (func_entropy n MAX_CALLS) s := by
  cases hv : visitList ch (Ctx.func 0 :: s) with
  | error e => simp [visit, hv, bind, Except.bind] at h
  | ok st =>
    obtain ⟨rs₀, s₀⟩ := st
    have hm := visitList_headMod ch (Ctx.func 0 :: s) rs₀ s₀ hv
    obtain ⟨c', rfl, hct⟩ := hm
    cases c' with
    | cls fns => simp [ctag] at hct
    | func k =>
      simp only [visit, hv, bind, Except.bind, closeFunc, Except.ok.injEq,
        Prod.mk.injEq] at h
      exact ⟨rs₀, k, rfl, h.1.symm, h.2.symm⟩

theorem concat_get_last {α : Type} (l : List α) (e : α) (h : l.length < (l ++ [e]).length) :
    (l ++ [e]).get ⟨l.length, h⟩ = e := by
  induction l with
  | nil => rfl
  | cons a l ih => exact ih (by simp)

theorem concat_eraseIdx {α : Type} (l : List α) (e : α) : (l ++ [e]).eraseIdx l.length = l := by
  induction l with
  | nil => rfl
  | cons a l ih => simp [List.eraseIdx, ih]

theorem pyIndex_concat {α : Type} (l : List α) (e : α) :
    pyIndex (l ++ [e]) (l.length : ℤ) = some e := by
  have h0 : ¬ ((l.length : ℤ) < 0) := by omega
  have h1 : ((l.length : ℤ)).toNat = l.length := Int.toNat_natCast l.length
  simp only [pyIndex, h0, if_false, List.length_append, List.length_singleton, h1]
  rw [dif_pos ⟨by omega, by omega⟩]
  exact congrArg some (concat_get_last l e (by simp))

theorem pyDelete_concat {α : Type} (l : List α) (e : α) :
    pyDelete (l ++ [e]) (l.length : ℤ) = some l := by
  have h0 : ¬ ((l.length : ℤ) < 0) := by omega
  have h1 : ((l.length : ℤ)).toNat = l.length := Int.toNat_natCast l.length
  simp only [pyDelete, h0, if_false, List.length_append, List.length_singleton, h1]
  rw [if_pos ⟨by omega, by omega⟩]
  exact congrArg some (concat_eraseIdx l e)

theorem stack_pop_push {α : Type} (s : Stack α) (e : α) (hs : s.Inv) :
    (s.push e).pop = some (e, s) := by
  obtain ⟨inner, depth⟩ := s
  rw [Stack.Inv] at hs
  simp only at hs
  have hd : depth + 1 = (inner.length : ℤ) := by omega
  simp only [Stack.push, Stack.pop, hd, pyIndex_concat, pyDelete_concat,
    bind, Option.bind]
  have hd2 : (inner.length : ℤ) - 1 = depth := by omega
  rw [hd2]

theorem stack_pop_inv {α : Type} {s t : Stack α} {e : α} (hs : s.Inv)
    (h : s.pop = some (e, t)) : t.Inv := by
  obtain ⟨inner, depth⟩ := s
  rw [Stack.Inv] at hs
  simp only at hs
  rcases List.eq_nil_or_concat inner with hn | ⟨l, a, rfl⟩
  · subst hn
    have hd : depth = -1 := by simpa using hs
    subst hd
    norm_num [Stack.pop, pyIndex, bind, Option.bind] at h
    exact Option.noConfusion h
  · simp only [List.concat_eq_append] at hs h
    have hd : depth = (l.length : ℤ) := by
      simp only [List.length_append, List.length_cons, List.length_nil] at hs
      omega
    simp only [Stack.pop, hd, pyIndex_concat, pyDelete_concat, bind, Option.bind,
      Option.some.injEq, Prod.mk.injEq] at h
    rw [← h.2, Stack.Inv]

theorem runOp_inv {α : Type} {s t : Stack α} {op : StackOp α} (hs : s.Inv)
    (h : runOp s op = some t) : t.Inv := by
  cases op with
  | push e =>
    simp only [runOp, Option.some.injEq] at h
    subst h
    obtain ⟨inner, depth⟩ := s
    rw [Stack.Inv] at hs ⊢
    simp only at hs
    simp only [Stack.push, List.length_append, List.length_singleton]
    omega
  | pop =>
    simp only [runOp] at h
    cases hp : s.pop with
    | none => rw [hp] at h; simp [Option.map] at h
    | some pr =>
      obtain ⟨e, t'⟩ := pr
      rw [hp] at h
      simp only [Option.map, Option.some.injEq] at h
      subst h
      exact stack_pop_inv hs hp

theorem runOps_inv {α : Type} (ops : List (StackOp α)) (s s' : Stack α) (hs : s.Inv)
    (h : runOps ops s = some s') : s'.Inv := by
  induction ops generalizing s with
  | nil =>
    rw [runOps] at h
    injection h with h
    subst h
    exact hs
  | cons op ops ih =>
    rw [runOps] at h
    simp only [bind, Option.bind] at h
    cases hop : runOp s op with
    | none => rw [hop] at h; simp at h
    | some t =>
      rw [hop] at h
      exact ih t (runOp_inv hs hop) h

theorem stack_init_inv {α : Type} : (Stack.init : Stack α).Inv := by
  show (-1 : ℤ) = (([] : List α).length : ℤ) - 1
  simp

/-- C1 counterexample: on a class with no functions the analyzer does
not emit a score-1 result; `reduce` over the empty score list raises
`TypeError` and the whole analysis fails. -/
theorem claim1_counterexample :
    analyze (Node.classDef "C" []) = Except.error Err.typeError := by rfl

/-- C1 (amended): for every `ClassDefinition` whose function-score
sequence is empty when its scope closes, `analyze` does not emit a
result; it raises `TypeError` (Python's `reduce` of an empty iterable
with no initial value). -/
theorem claim1_theorem (name : String) (ch : List Node) (s s₁ : List Ctx)
    (rs₀ : List Emitted)
    (h : visitList ch (Ctx.cls [] :: s) = Except.ok (rs₀, Ctx.cls [] :: s₁)) :
    visit (Node.classDef name ch) s = Except.error Err.typeError := by
  simp [visit, h, bind, Except.bind, closeClass, reduceMul]

/-- C1 witness: the hypothesis holds for the class `C` with no children
visited from the empty stack, and the conclusion evaluates there. -/
theorem claim1_witness :
    visitList [] [Ctx.cls []] = Except.ok ([], [Ctx.cls []]) ∧
      visit (Node.classDef "C" []) [] = Except.error Err.typeError :=
  ⟨rfl, claim1_theorem "C" [] [] [] [] rfl⟩

/-- C2 counterexample: a call directly inside a class body does crash
the traversal — `peek["calls"]` on a class context raises `KeyError`. -/
theorem claim2_counterexample :
    analyze (Node.classDef "C" [Node.call []]) = Except.error Err.keyError := by rfl

/-- C2 (amended): visiting a `CallExpression` while the top of the
context stack is a `ClassContext` raises `KeyError` (class contexts
carry no `"calls"` counter); the call is not silently dropped. -/
theorem claim2_theorem (ch : List Node) (fns : List ℚ) (rest : List Ctx) :
    visit (Node.call ch) (Ctx.cls fns :: rest) = Except.error Err.keyError := by
  simp [visit]

/-- C3 counterexample: a nested class closing with a `ClassContext` on
top of the remaining stack does NOT append its score to that context:
the enclosing class's score list is still `[]` afterwards. -/
theorem claim3_counterexample :
    visit (Node.classDef "B" [Node.funcDef "f" []]) [Ctx.cls []] =
      Except.ok ([⟨Kind.func, "f", 0, 1⟩, ⟨Kind.cls, "B", 1, 1⟩], [Ctx.cls []]) := by
  norm_num [visit, visitList, closeClass, closeFunc, appendScore, reduceMul,
    func_entropy, pymax, pymin, MAX_CALLS, bind, Except.bind]

/-- C3 (amended): when a `ClassDefinition`'s scope closes, nothing is
appended to any enclosing context: the remaining stack is returned
exactly as it was when the class was entered (only `visit_FunctionDef`
has the append-to-enclosing-class step). -/
theorem claim3_theorem (name : String) (ch : List Node) (s s' : List Ctx)
    (rs : List Emitted)
    (h : visit (Node.classDef name ch) s = Except.ok (rs, s')) : s' = s := by
  obtain ⟨-, -, -, -, -, h3⟩ := visit_classDef_inv name ch s rs s' h
  exact h3

/-- C3 witness: a class containing one function analyzed from the empty
stack succeeds, and the theorem applies to it. -/
theorem claim3_witness :
    visit (Node.classDef "D" [Node.funcDef "h" []]) [] =
      Except.ok ([⟨Kind.func, "h", 0, 1⟩, ⟨Kind.cls, "D", 1, 1⟩], []) ∧
      ([] : List Ctx) = [] := by
  have hc : visit (Node.classDef "D" [Node.funcDef "h" []]) [] =
      Except.ok ([⟨Kind.func, "h", 0, 1⟩, ⟨Kind.cls, "D", 1, 1⟩], []) := by
    norm_num [visit, visitList, closeClass, closeFunc, appendScore, reduceMul,
      func_entropy, pymax, pymin, MAX_CALLS, bind, Except.bind]
  exact ⟨hc, claim3_theorem "D" [Node.funcDef "h" []] [] [] _ hc⟩

/-- C4: every function scope that closes with call count `n` emits the
score `max(min(1 - n/10, 1), 0)` alongside that count, and concretely
n=0 scores 1, n=5 scores 1/2, n=10 scores 0 and n=15 scores 0. -/
theorem claim4_theorem :
    (∀ (name : String) (ch : List Node) (s : List Ctx) (rs : List Emitted)
        (s' : List Ctx),
        visit (Node.funcDef name ch) s = Except.ok (rs, s') →
        ∃ rs₀ n, rs = rs₀ ++ [⟨Kind.func, name, n, max (min (1 - (n : ℚ) / 10) 1) 0⟩]) ∧
      func_entropy 0 10 = 1 ∧ func_entropy 5 10 = 1/2 ∧
      func_entropy 10 10 = 0 ∧ func_entropy 15 10 = 0 := by
  constructor
  · intro name ch s rs s' h
    obtain ⟨rs₀, n, -, h2, -⟩ := visit_funcDef_inv name ch s rs s' h
    refine ⟨rs₀, n, ?_⟩
    rw [h2, func_entropy_eq]
    norm_num [MAX_CALLS]
  · refine ⟨?_, ?_, ?_, ?_⟩ <;> norm_num [func_entropy, pymax, pymin]

/-- C4 witness: a function with no children closes with count 0 and the
theorem's conclusion evaluates there. -/
theorem claim4_witness :
    visit (Node.funcDef "w4" []) [] =
      Except.ok ([⟨Kind.func, "w4", 0, func_entropy 0 MAX_CALLS⟩], []) ∧
      ∃ rs₀ n, [(⟨Kind.func, "w4", 0, func_entropy 0 MAX_CALLS⟩ : Emitted)] =
        rs₀ ++ [⟨Kind.func, "w4", n, max (min (1 - (n : ℚ) / 10) 1) 0⟩] :=
  ⟨rfl, claim4_theorem.1 "w4" [] [] _ [] rfl⟩

/-- C5: a function closing inside another function leaves the outer
function's counter (and the rest of the stack) exactly unchanged, and a
call increments exactly the nearest enclosing (top) function counter
before recursing into its children. -/
theorem claim5_theorem :
    (∀ (name : String) (ch : List Node) (k : ℕ) (rest : List Ctx)
        (rs : List Emitted) (s' : List Ctx),
        visit (Node.funcDef name ch) (Ctx.func k :: rest) = Except.ok (rs, s') →
        s' = Ctx.func k :: rest) ∧
      ∀ (ch : List Node) (k : ℕ) (rest : List Ctx),
        visit (Node.call ch) (Ctx.func k :: rest) =
          visitList ch (Ctx.func (k + 1) :: rest) := by
  constructor
  · intro name ch k rest rs s' h
    obtain ⟨-, n, -, -, h3⟩ := visit_funcDef_inv name ch (Ctx.func k :: rest) rs s' h
    rw [h3]
    simp [appendScore]
  · intro ch k rest
    rfl

/-- C5 witness: an inner function closing over `[Ctx.func 3]` returns
the stack with the outer counter still 3. -/
theorem claim5_witness :
    visit (Node.funcDef "w5" []) [Ctx.func 3] =
      Except.ok ([⟨Kind.func, "w5", 0, func_entropy 0 MAX_CALLS⟩], [Ctx.func 3]) ∧
      ([Ctx.func 3] : List Ctx) = [Ctx.func 3] :=
  ⟨rfl, claim5_theorem.1 "w5" [] 3 [] _ [Ctx.func 3] rfl⟩

/-- C6: results are emitted in the order scopes close (post-order): for
`class C: def f(): def g(): pass` the emission order is g, f, C; and in
general a function's or class's own record is emitted last, after all
records produced inside its subtree. -/
theorem claim6_theorem :
    analyze (Node.classDef "C" [Node.funcDef "f" [Node.funcDef "g" []]]) =
      Except.ok ([⟨Kind.func, "g", 0, 1⟩, ⟨Kind.func, "f", 0, 1⟩,
        ⟨Kind.cls, "C", 1, 1⟩], []) ∧
      (∀ (name : String) (ch : List Node) (s : List Ctx) (rs : List Emitted)
          (s' : List Ctx),
          visit (Node.funcDef name ch) s = Except.ok (rs, s') →
          ∃ rs₀ n sc, rs = rs₀ ++ [⟨Kind.func, name, n, sc⟩]) ∧
      ∀ (name : String) (ch : List Node) (s : List Ctx) (rs : List Emitted)
          (s' : List Ctx),
          visit (Node.classDef name ch) s = Except.ok (rs, s') →
          ∃ rs₀ n sc, rs = rs₀ ++ [⟨Kind.cls, name, n, sc⟩] := by
  refine ⟨?_, ?_, ?_⟩
  · norm_num [analyze, visit, visitList, closeClass, closeFunc, appendScore,
      reduceMul, func_entropy, pymax, pymin, MAX_CALLS, bind, Except.bind]
  · intro name ch s rs s' h
    obtain ⟨rs₀, n, -, h2, -⟩ := visit_funcDef_inv name ch s rs s' h
    exact ⟨rs₀, n, _, h2⟩
  · intro name ch s rs s' h
    obtain ⟨rs₀, x, xs, -, h2, -⟩ := visit_classDef_inv name ch s rs s' h
    exact ⟨rs₀, _, _, h2⟩

/-- C6 witness: the post-order decomposition applies to a concrete
completed function visit. -/
theorem claim6_witness :
    visit (Node.funcDef "w6" []) [] =
      Except.ok ([⟨Kind.func, "w6", 0, func_entropy 0 MAX_CALLS⟩], []) ∧
      ∃ rs₀ n sc, [(⟨Kind.func, "w6", 0, func_entropy 0 MAX_CALLS⟩ : Emitted)] =
        rs₀ ++ [⟨Kind.func, "w6", n, sc⟩] :=
  ⟨rfl, claim6_theorem.2.1 "w6" [] [] _ [] rfl⟩

/-- C7: a call visited with the empty context stack raises no error and
increments nothing — it is exactly a traversal of its children from the
empty stack; in particular a bare call node yields no output and leaves
the stack empty. -/
theorem claim7_theorem :
    (∀ ch : List Node, visit (Node.call ch) [] = visitList ch []) ∧
      visit (Node.call []) [] = Except.ok ([], []) :=
  ⟨fun _ => rfl, rfl⟩

/-- C8: the context-stack discipline. A completed visit returns a stack
of the same length whose tail is untouched and whose head keeps its
kind (`HeadMod`); class and function scopes run their children with
exactly one freshly pushed context; and a traversal that starts on the
empty stack ends on the empty stack. -/
theorem claim8_theorem :
    (∀ (n : Node) (s : List Ctx) (rs : List Emitted) (s' : List Ctx),
        visit n s = Except.ok (rs, s') → HeadMod s s' ∧ s.length = s'.length) ∧
      (∀ (name : String) (ch : List Node) (s : List Ctx),
        visit (Node.classDef name ch) s =
          (visitList ch (Ctx.cls [] :: s)).bind (closeClass name)) ∧
      (∀ (name : String) (ch : List Node) (s : List Ctx),
        visit (Node.funcDef name ch) s =
          (visitList ch (Ctx.func 0 :: s)).bind (closeFunc name)) ∧
      ∀ (t : Node) (rs : List Emitted) (s' : List Ctx),
        analyze t = Except.ok (rs, s') → s' = [] := by
  refine ⟨?_, ?_, ?_, ?_⟩
  · intro n s rs s' h
    have hm := visit_headMod n s rs s' h
    exact ⟨hm, headMod_length hm⟩
  · intro name ch s
    rfl
  · intro name ch s
    rfl
  · intro t rs s' h
    have hm := visit_headMod t [] rs s' h
    rw [HeadMod] at hm
    exact hm

/-- C8 witness: a completed traversal of a node with no scopes ends with
the empty stack. -/
theorem claim8_witness :
    analyze (Node.other []) = Except.ok ([], []) ∧ ([] : List Ctx) = [] :=
  ⟨rfl, claim8_theorem.2.2.2 (Node.other []) [] [] rfl⟩

/-- C9: analysis is a pure function of the tree: two runs, each with a
fresh `Analyzer` as `main` constructs one, produce identical results,
and each equals the single-run analysis. -/
theorem claim9_theorem (root : Node) :
    (analyzeTwice root).1 = (analyzeTwice root).2 ∧
      (analyzeTwice root).1 = analyze root :=
  ⟨rfl, rfl⟩

/-- C10: the `Stack` LIFO round-trip law under the depth invariant, and
the invariant `__depth = len(__inner) - 1` after every sequence of
push/pop operations from a fresh stack. -/
theorem claim10_theorem :
    (∀ (α : Type) (s : Stack α) (e : α), s.Inv → (s.push e).pop = some (e, s)) ∧
      ∀ (α : Type) (ops : List (StackOp α)) (s' : Stack α),
        runOps ops Stack.init = some s' → s'.Inv := by
  constructor
  · intro α s e hs
    exact stack_pop_push s e hs
  · intro α ops s' h
    exact runOps_inv ops Stack.init s' stack_init_inv h

/-- C10 witness: pushing 5 on a fresh stack and popping returns 5 and
the fresh stack; a concrete push/pop sequence keeps the invariant. -/
theorem claim10_witness :
    (Stack.init : Stack ℕ).Inv ∧
      ((Stack.init : Stack ℕ).push 5).pop = some (5, Stack.init) ∧
      runOps [StackOp.push 7, StackOp.pop] (Stack.init : Stack ℕ) = some Stack.init ∧
      (Stack.init : Stack ℕ).Inv :=
  ⟨stack_init_inv, claim10_theorem.1 ℕ Stack.init 5 stack_init_inv,
    by norm_num [runOps, runOp, Stack.push, Stack.pop, Stack.init, pyIndex, pyDelete,
      bind, Option.bind],
    claim10_theorem.2 ℕ [StackOp.push 7, StackOp.pop] Stack.init
      (by norm_num [runOps, runOp, Stack.push, Stack.pop, Stack.init, pyIndex, pyDelete,
        bind, Option.bind])⟩

end Entropy
